import Mathlib

/-!
Verification of the alert-multiplet pipeline (`utils.py`).

The development shallowly embeds the four core components over exact
rationals:

* `is_in_ellipse` — quadrant-wise membership of a point in an asymmetric
  error ellipse, with the 0°/360° wraparound corrections (lines 11–65);
* `touchingFor` / `get_multiplet_index_dictionary` — the overlap graph
  builder that samples 20 parametric boundary points per quadrant for every
  alert and tests them against a probe alert's ellipse (lines 68–119),
  followed by the mutual-conflict resolution pass (lines 126–145);
* `resolveMultiplets` — the resolution pass on its own, over arbitrary
  adjacency maps (association lists of alert index to touching indices);
* `get_weighted_coords` / `go_through_multiplet_dict` — the inverse-variance
  weighted aggregation (lines 148–224).  The transcendental primitives the
  source takes from astropy/numpy (weighted circular mean, square root,
  cosine, sine) are parameters of the embedding; theorems assume only the
  exact-value facts of those primitives that the spec guarantees.

Machine floats are embedded as exact rationals.  The one place where IEEE
special values matter is division by a zero semi-axis: numpy produces
inf/NaN there and every comparison with NaN is false, which is embedded as
an explicit nonzero guard on the quadrant contour test (`contourLe`).
-/

/-- Floor of a rational, computable (`Int` division is floor-like for the
positive denominator). -/
def ratFloor (q : ℚ) : ℤ := q.num / q.den

lemma ratFloor_eq_floor (q : ℚ) : ratFloor q = ⌊q⌋ := Rat.floor_def.symm

/-- Python's `x % 360` on floats: `x - 360*floor(x/360)`, always in `[0, 360)`. -/
def pymod360 (x : ℚ) : ℚ := x - 360 * (ratFloor (x / 360) : ℚ)

lemma pymod360_def (x : ℚ) : pymod360 x = x - 360 * (⌊x / 360⌋ : ℚ) := by
  rw [pymod360, ratFloor_eq_floor]

lemma pymod360_nonneg (x : ℚ) : 0 ≤ pymod360 x := by
  rw [pymod360_def]
  have h := Int.floor_le (x / 360)
  nlinarith [h]

lemma pymod360_lt (x : ℚ) : pymod360 x < 360 := by
  rw [pymod360_def]
  have h := Int.lt_floor_add_one (x / 360)
  nlinarith [h]

lemma pymod360_eq_self (x : ℚ) (h0 : 0 ≤ x) (h1 : x < 360) : pymod360 x = x := by
  rw [pymod360_def]
  have hz : ⌊x / 360⌋ = 0 := by
    rw [Int.floor_eq_zero_iff, Set.mem_Ico]
    exact ⟨by positivity, (div_lt_one (by norm_num : (0:ℚ) < 360)).mpr h1⟩
  rw [hz]
  push_cast
  ring

lemma pymod360_idem (x : ℚ) : pymod360 (pymod360 x) = pymod360 x :=
  pymod360_eq_self _ (pymod360_nonneg x) (pymod360_lt x)

lemma pymod360_zero : pymod360 0 = 0 :=
  pymod360_eq_self 0 le_rfl (by norm_num)

lemma pymod360_neg_360 : pymod360 (-360) = 0 := by
  rw [pymod360_def]
  have hz : ⌊(-360 : ℚ) / 360⌋ = -1 := by
    norm_num
  rw [hz]
  norm_num

/-- A point to be tested for ellipse membership: one row of the structured
`points` array (fields `"RA"`, `"DEC"`). -/
structure Point where
  RA : ℚ
  DEC : ℚ
deriving DecidableEq

/-- One alert row of the catalog dataframe. -/
structure Alert where
  RA : ℚ
  DEC : ℚ
  RA_ERR_PLUS : ℚ
  RA_ERR_MINUS : ℚ
  DEC_ERR_PLUS : ℚ
  DEC_ERR_MINUS : ℚ
deriving DecidableEq

/-- The relative RA offset computed by `is_in_ellipse` (lines 28–35):
`tmp_ra = p.RA - ra`, then `tmp_ra %= 360` when the ellipse sticks out past
360°, then the mirrored correction when it sticks out below 0°. -/
def tmpRA (pra ra ra_min ra_max : ℚ) : ℚ :=
  let t0 := pra - ra
  let t1 := if 360 ≤ ra + ra_max then pymod360 t0 else t0
  if ra + ra_min ≤ 0 then -(pymod360 (-t1)) else t1

/-- Quadrant contour test `(t²/a²) + (u²/b²) <= 1` (lines 43/49/55/61).  In
the source the divisions are IEEE float divisions: a zero semi-axis produces
inf/NaN and the comparison is then false, which is embedded by the explicit
nonzero guards over exact rationals. -/
def contourLe (t u a b : ℚ) : Bool :=
  decide (a ≠ 0) && decide (b ≠ 0) && decide (t ^ 2 / a ^ 2 + u ^ 2 / b ^ 2 ≤ 1)

/-- `mask1` (lines 40–43): first quadrant box and contour. -/
def quadMask1 (t u ra_max dec_max : ℚ) : Bool :=
  (decide (0 ≤ t) && decide (t ≤ ra_max)) && (decide (0 ≤ u) && decide (u ≤ dec_max)) &&
    contourLe t u ra_max dec_max

/-- `mask2` (lines 46–49): second quadrant box and contour. -/
def quadMask2 (t u ra_max dec_min : ℚ) : Bool :=
  (decide (0 ≤ t) && decide (t ≤ ra_max)) && (decide (u ≤ 0) && decide (dec_min ≤ u)) &&
    contourLe t u ra_max dec_min

/-- `mask3` (lines 52–55): third quadrant box and contour. -/
def quadMask3 (t u ra_min dec_min : ℚ) : Bool :=
  (decide (t ≤ 0) && decide (ra_min ≤ t)) && (decide (u ≤ 0) && decide (dec_min ≤ u)) &&
    contourLe t u ra_min dec_min

/-- `mask4` (lines 58–61): fourth quadrant box and contour. -/
def quadMask4 (t u ra_min dec_max : ℚ) : Bool :=
  (decide (t ≤ 0) && decide (ra_min ≤ t)) && (decide (0 ≤ u) && decide (u ≤ dec_max)) &&
    contourLe t u ra_min dec_max

/-- `is_in_ellipse(points, ra, dec, ra_err, dec_err)` for one point
(lines 11–65).  `ra_err` and `dec_err` are the (one sign each) error tuples;
the source takes `min`/`max` defensively. -/
def is_in_ellipse (p : Point) (ra dec : ℚ) (ra_err dec_err : ℚ × ℚ) : Bool :=
  quadMask1 (tmpRA p.RA ra (min ra_err.1 ra_err.2) (max ra_err.1 ra_err.2)) (p.DEC - dec)
      (max ra_err.1 ra_err.2) (max dec_err.1 dec_err.2) ||
  quadMask2 (tmpRA p.RA ra (min ra_err.1 ra_err.2) (max ra_err.1 ra_err.2)) (p.DEC - dec)
      (max ra_err.1 ra_err.2) (min dec_err.1 dec_err.2) ||
  quadMask3 (tmpRA p.RA ra (min ra_err.1 ra_err.2) (max ra_err.1 ra_err.2)) (p.DEC - dec)
      (min ra_err.1 ra_err.2) (min dec_err.1 dec_err.2) ||
  quadMask4 (tmpRA p.RA ra (min ra_err.1 ra_err.2) (max ra_err.1 ra_err.2)) (p.DEC - dec)
      (min ra_err.1 ra_err.2) (max dec_err.1 dec_err.2)

lemma contourLe_eq_true {t u a b : ℚ} :
    contourLe t u a b = true ↔ a ≠ 0 ∧ b ≠ 0 ∧ t ^ 2 / a ^ 2 + u ^ 2 / b ^ 2 ≤ 1 := by
  simp [contourLe, and_assoc]

lemma sq_le_sq_of_contour_first {t u a b : ℚ} (h : contourLe t u a b = true) : t ^ 2 ≤ a ^ 2 := by
  rw [contourLe_eq_true] at h
  obtain ⟨ha, hb, hle⟩ := h
  have ha2 : (0:ℚ) < a ^ 2 := by positivity
  have hb2 : (0:ℚ) < b ^ 2 := by positivity
  have hu : (0:ℚ) ≤ u ^ 2 / b ^ 2 := div_nonneg (sq_nonneg u) (le_of_lt hb2)
  have h1 : t ^ 2 / a ^ 2 ≤ 1 := by linarith
  exact (div_le_one ha2).mp h1

lemma sq_le_sq_of_contour_second {t u a b : ℚ} (h : contourLe t u a b = true) : u ^ 2 ≤ b ^ 2 := by
  rw [contourLe_eq_true] at h
  obtain ⟨ha, hb, hle⟩ := h
  have ha2 : (0:ℚ) < a ^ 2 := by positivity
  have hb2 : (0:ℚ) < b ^ 2 := by positivity
  have ht : (0:ℚ) ≤ t ^ 2 / a ^ 2 := div_nonneg (sq_nonneg t) (le_of_lt ha2)
  have h1 : u ^ 2 / b ^ 2 ≤ 1 := by linarith
  exact (div_le_one hb2).mp h1

lemma le_of_sq_le_sq_nonneg {t a : ℚ} (ht : 0 ≤ t) (ha : 0 ≤ a) (h : t ^ 2 ≤ a ^ 2) : t ≤ a := by
  nlinarith

lemma ge_of_sq_le_sq_nonpos {t a : ℚ} (ht : t ≤ 0) (ha : a ≤ 0) (h : t ^ 2 ≤ a ^ 2) : a ≤ t := by
  nlinarith

lemma quadMask1_iff (t u a b : ℚ) (ha : 0 ≤ a) (hb : 0 ≤ b) :
    quadMask1 t u a b = true ↔ (0 ≤ t ∧ 0 ≤ u ∧ contourLe t u a b = true) := by
  simp only [quadMask1, Bool.and_eq_true, decide_eq_true_eq]
  constructor
  · rintro ⟨⟨⟨h1, _⟩, h2, _⟩, hc⟩
    exact ⟨h1, h2, hc⟩
  · rintro ⟨h1, h2, hc⟩
    exact ⟨⟨⟨h1, le_of_sq_le_sq_nonneg h1 ha (sq_le_sq_of_contour_first hc)⟩,
      h2, le_of_sq_le_sq_nonneg h2 hb (sq_le_sq_of_contour_second hc)⟩, hc⟩

lemma quadMask2_iff (t u a b : ℚ) (ha : 0 ≤ a) (hb : b ≤ 0) :
    quadMask2 t u a b = true ↔ (0 ≤ t ∧ u ≤ 0 ∧ contourLe t u a b = true) := by
  simp only [quadMask2, Bool.and_eq_true, decide_eq_true_eq]
  constructor
  · rintro ⟨⟨⟨h1, _⟩, h2, _⟩, hc⟩
    exact ⟨h1, h2, hc⟩
  · rintro ⟨h1, h2, hc⟩
    exact ⟨⟨⟨h1, le_of_sq_le_sq_nonneg h1 ha (sq_le_sq_of_contour_first hc)⟩,
      h2, ge_of_sq_le_sq_nonpos h2 hb (sq_le_sq_of_contour_second hc)⟩, hc⟩

lemma quadMask3_iff (t u a b : ℚ) (ha : a ≤ 0) (hb : b ≤ 0) :
    quadMask3 t u a b = true ↔ (t ≤ 0 ∧ u ≤ 0 ∧ contourLe t u a b = true) := by
  simp only [quadMask3, Bool.and_eq_true, decide_eq_true_eq]
  constructor
  · rintro ⟨⟨⟨h1, _⟩, h2, _⟩, hc⟩
    exact ⟨h1, h2, hc⟩
  · rintro ⟨h1, h2, hc⟩
    exact ⟨⟨⟨h1, ge_of_sq_le_sq_nonpos h1 ha (sq_le_sq_of_contour_first hc)⟩,
      h2, ge_of_sq_le_sq_nonpos h2 hb (sq_le_sq_of_contour_second hc)⟩, hc⟩

lemma quadMask4_iff (t u a b : ℚ) (ha : a ≤ 0) (hb : 0 ≤ b) :
    quadMask4 t u a b = true ↔ (t ≤ 0 ∧ 0 ≤ u ∧ contourLe t u a b = true) := by
  simp only [quadMask4, Bool.and_eq_true, decide_eq_true_eq]
  constructor
  · rintro ⟨⟨⟨h1, _⟩, h2, _⟩, hc⟩
    exact ⟨h1, h2, hc⟩
  · rintro ⟨h1, h2, hc⟩
    exact ⟨⟨⟨h1, ge_of_sq_le_sq_nonpos h1 ha (sq_le_sq_of_contour_first hc)⟩,
      h2, le_of_sq_le_sq_nonneg h2 hb (sq_le_sq_of_contour_second hc)⟩, hc⟩

/-- C1: `is_in_ellipse` marks a point inside exactly when, for some quadrant,
the point's (wraparound-corrected) offsets `(dRA, dDEC)` carry that
quadrant's signs and satisfy the closed contour inequality
`(dRA²/a²) + (dDEC²/b²) ≤ 1` for that quadrant's semi-axes; the extra box
bounds in the source are redundant, and boundary points (exact equality)
count as inside. -/
theorem is_in_ellipse_quadrant_iff (p : Point) (ra dec : ℚ) (raE decE : ℚ × ℚ)
    (rmin rmax dmin dmax t u : ℚ)
    (hrmin : rmin = min raE.1 raE.2) (hrmax : rmax = max raE.1 raE.2)
    (hdmin : dmin = min decE.1 decE.2) (hdmax : dmax = max decE.1 decE.2)
    (ht : t = tmpRA p.RA ra rmin rmax) (hu : u = p.DEC - dec)
    (h1 : rmin ≤ 0) (h2 : 0 ≤ rmax) (h3 : dmin ≤ 0) (h4 : 0 ≤ dmax) :
    is_in_ellipse p ra dec raE decE = true ↔
      ((0 ≤ t ∧ 0 ≤ u ∧ contourLe t u rmax dmax = true) ∨
       (0 ≤ t ∧ u ≤ 0 ∧ contourLe t u rmax dmin = true) ∨
       (t ≤ 0 ∧ u ≤ 0 ∧ contourLe t u rmin dmin = true) ∨
       (t ≤ 0 ∧ 0 ≤ u ∧ contourLe t u rmin dmax = true)) := by
  subst hrmin hrmax hdmin hdmax ht hu
  rw [is_in_ellipse]
  simp only [Bool.or_eq_true]
  rw [quadMask1_iff _ _ _ _ h2 h4, quadMask2_iff _ _ _ _ h2 h3,
    quadMask3_iff _ _ _ _ h1 h3, quadMask4_iff _ _ _ _ h1 h4]
  simp only [or_assoc]

lemma contourLe_left_zero (t u b : ℚ) : contourLe t u 0 b = false := by
  simp [contourLe]

lemma contourLe_right_zero (t u a : ℚ) : contourLe t u a 0 = false := by
  simp [contourLe]

/-- C10: a zero semi-axis never raises an error (the embedding is total, as
numpy only emits warnings and produces inf/NaN, for which every comparison
is false); the quadrants using the zero axis have an everywhere-false mask
(the center included), so the result is the OR of the remaining quadrants. -/
theorem is_in_ellipse_zero_semiaxis (p : Point) (ra dec : ℚ) (raE decE : ℚ × ℚ)
    (rmin rmax dmin dmax t u : ℚ)
    (hrmin : rmin = min raE.1 raE.2) (hrmax : rmax = max raE.1 raE.2)
    (hdmin : dmin = min decE.1 decE.2) (hdmax : dmax = max decE.1 decE.2)
    (ht : t = tmpRA p.RA ra rmin rmax) (hu : u = p.DEC - dec) :
    (rmax = 0 → quadMask1 t u rmax dmax = false ∧ quadMask2 t u rmax dmin = false ∧
      is_in_ellipse p ra dec raE decE = (quadMask3 t u rmin dmin || quadMask4 t u rmin dmax)) ∧
    (rmin = 0 → quadMask3 t u rmin dmin = false ∧ quadMask4 t u rmin dmax = false ∧
      is_in_ellipse p ra dec raE decE = (quadMask1 t u rmax dmax || quadMask2 t u rmax dmin)) ∧
    (dmax = 0 → quadMask1 t u rmax dmax = false ∧ quadMask4 t u rmin dmax = false ∧
      is_in_ellipse p ra dec raE decE = (quadMask2 t u rmax dmin || quadMask3 t u rmin dmin)) ∧
    (dmin = 0 → quadMask2 t u rmax dmin = false ∧ quadMask3 t u rmin dmin = false ∧
      is_in_ellipse p ra dec raE decE = (quadMask1 t u rmax dmax || quadMask4 t u rmin dmax)) := by
  subst hrmin hrmax hdmin hdmax ht hu
  refine ⟨fun hz => ?_, fun hz => ?_, fun hz => ?_, fun hz => ?_⟩ <;>
    rw [is_in_ellipse] <;> rw [hz] <;>
    simp [quadMask1, quadMask2, quadMask3, quadMask4, contourLe_left_zero, contourLe_right_zero,
      Bool.or_comm, Bool.or_assoc, Bool.or_left_comm]

/-- Witness for C10: with both RA semi-axes zero, quadrants 1 and 2 are
false and membership reduces to quadrants 3 and 4, at a concrete input. -/
theorem is_in_ellipse_zero_semiaxis_witness :
    ((0:ℚ) = max (0:ℚ) 0) ∧
    (quadMask1 (tmpRA 5 0 0 0) (5 - 0) 0 1 = false ∧
     quadMask2 (tmpRA 5 0 0 0) (5 - 0) 0 (-1) = false ∧
     is_in_ellipse ⟨5, 5⟩ 0 0 (0, 0) (-1, 1) =
       (quadMask3 (tmpRA 5 0 0 0) (5 - 0) 0 (-1) || quadMask4 (tmpRA 5 0 0 0) (5 - 0) 0 1)) := by
  refine ⟨by simp, ?_⟩
  exact (is_in_ellipse_zero_semiaxis ⟨5, 5⟩ 0 0 (0, 0) (-1, 1) 0 0 (-1) 1
    (tmpRA 5 0 0 0) (5 - 0) (by simp) (by simp) (by norm_num [min_def])
    (by norm_num [max_def]) rfl rfl).1 rfl

/-- Witness for C1 at a concrete boundary point: the point at RA offset
exactly `+ra_err` (contour value exactly 1) is classified inside. -/
theorem is_in_ellipse_quadrant_iff_witness :
    ((-1 : ℚ) ≤ 0 ∧ (0:ℚ) ≤ 1) ∧ is_in_ellipse ⟨101, 0⟩ 100 0 (1, -1) (1, -1) = true := by
  refine ⟨⟨by norm_num, by norm_num⟩, ?_⟩
  have h := is_in_ellipse_quadrant_iff ⟨101, 0⟩ 100 0 (1, -1) (1, -1)
    (-1) 1 (-1) 1 (1 : ℚ) (0 : ℚ)
    (by norm_num [min_def]) (by norm_num [max_def]) (by norm_num [min_def])
    (by norm_num [max_def]) ?_ (by norm_num) (by norm_num) (by norm_num) (by norm_num)
    (by norm_num)
  · refine h.mpr (Or.inl ⟨by norm_num, le_rfl, ?_⟩)
    rw [contourLe_eq_true]
    norm_num
  · rw [tmpRA]
    norm_num

/-! ### Multiplet resolution (lines 126–145) -/

/-- `multiplets[i]` with the empty list as default; graphs are association
lists `index ↦ touching indices`, mirroring the insertion-ordered Python
dict.  On the graphs the source builds every referenced index is a key, so
the default is never consulted there. -/
def lookupD (g : List (ℕ × List ℕ)) (i : ℕ) : List ℕ :=
  ((g.find? fun pr => pr.1 == i).map Prod.snd).getD []

/-- The index that the mutual conflict `(A, B)` marks for removal
(lines 134–141): the side with the strictly smaller touching-set size, and
the larger index when the sizes tie. -/
def pairLoser (g : List (ℕ × List ℕ)) (A B : ℕ) : ℕ :=
  if (lookupD g A).length < (lookupD g B).length then A
  else if (lookupD g B).length < (lookupD g A).length then B
  else max A B

/-- The removal decisions contributed by probe index `A` (the body of the
outer loop of lines 127–141). -/
def decisionsFor (g : List (ℕ × List ℕ)) (A : ℕ) : List ℕ :=
  if 0 < (lookupD g A).length then
    (lookupD g A).filterMap fun B =>
      if A ∈ lookupD g B then some (pairLoser g A B) else none
  else []

/-- `remove_multiplets_for_indices` (lines 126–141): every decision is
computed from the unmutated input graph. -/
def removeDecisions (g : List (ℕ × List ℕ)) : List ℕ :=
  (g.map Prod.fst).flatMap (decisionsFor g)

/-- The resolution pass of `get_multiplet_index_dictionary` (lines 126–145):
collect all decisions, then empty the entries of the marked indices. -/
def resolveMultiplets (g : List (ℕ × List ℕ)) : List (ℕ × List ℕ) :=
  g.map fun pr => if pr.1 ∈ removeDecisions g then (pr.1, ([] : List ℕ)) else pr

lemma lookupD_nil (i : ℕ) : lookupD [] i = [] := rfl

lemma lookupD_cons (hd : ℕ × List ℕ) (tl : List (ℕ × List ℕ)) (i : ℕ) :
    lookupD (hd :: tl) i = if hd.1 = i then hd.2 else lookupD tl i := by
  by_cases h : hd.1 = i
  · simp [lookupD, List.find?_cons, h]
  · simp [lookupD, List.find?_cons, h]

lemma lookupD_emptyIf (g : List (ℕ × List ℕ)) (Q : ℕ → Prop) [DecidablePred Q] (i : ℕ) :
    lookupD (g.map fun pr => if Q pr.1 then (pr.1, ([] : List ℕ)) else pr) i =
      if Q i then [] else lookupD g i := by
  induction g with
  | nil => simp [lookupD_nil]
  | cons hd tl ih =>
    have hkey : (if Q hd.1 then (hd.1, ([] : List ℕ)) else hd).1 = hd.1 := by
      split <;> rfl
    rw [List.map_cons, lookupD_cons, lookupD_cons, hkey]
    by_cases hk : hd.1 = i
    · subst hk
      by_cases hq : Q hd.1 <;> simp [hq]
    · simp only [hk, if_false, ih]

lemma lookupD_resolveMultiplets (g : List (ℕ × List ℕ)) (i : ℕ) :
    lookupD (resolveMultiplets g) i = if i ∈ removeDecisions g then [] else lookupD g i :=
  lookupD_emptyIf g (fun j => j ∈ removeDecisions g) i

lemma keys_resolveMultiplets (g : List (ℕ × List ℕ)) :
    (resolveMultiplets g).map Prod.fst = g.map Prod.fst := by
  rw [resolveMultiplets, List.map_map]
  apply List.map_congr_left
  intro pr _
  simp only [Function.comp_apply]
  split <;> rfl

lemma mem_removeDecisions (g : List (ℕ × List ℕ)) (i : ℕ) :
    i ∈ removeDecisions g ↔
      ∃ A ∈ g.map Prod.fst, ∃ B ∈ lookupD g A, A ∈ lookupD g B ∧ i = pairLoser g A B := by
  rw [removeDecisions, List.mem_flatMap]
  constructor
  · rintro ⟨A, hA, hdec⟩
    rw [decisionsFor] at hdec
    split at hdec
    · rw [List.mem_filterMap] at hdec
      obtain ⟨B, hB, hsome⟩ := hdec
      by_cases hAB : A ∈ lookupD g B
      · rw [if_pos hAB] at hsome
        exact ⟨A, hA, B, hB, hAB, (Option.some_inj.mp hsome).symm⟩
      · rw [if_neg hAB] at hsome
        exact absurd hsome (by simp)
    · exact absurd hdec (List.not_mem_nil i)
  · rintro ⟨A, hA, B, hB, hAB, rfl⟩
    refine ⟨A, hA, ?_⟩
    rw [decisionsFor, if_pos (List.length_pos.mpr (List.ne_nil_of_mem hB)), List.mem_filterMap]
    exact ⟨B, hB, by rw [if_pos hAB]⟩

lemma pairLoser_eq_or (g : List (ℕ × List ℕ)) (A B : ℕ) :
    pairLoser g A B = A ∨ pairLoser g A B = B := by
  rw [pairLoser]
  split
  · exact Or.inl rfl
  · split
    · exact Or.inr rfl
    · rcases le_total A B with h | h
      · exact Or.inr (max_eq_right h)
      · exact Or.inl (max_eq_left h)

/-- C2: a mutual touch `(A, B)` empties the entry of the side with the
strictly smaller touching-set size; with equal sizes it empties the strictly
larger index (never the smaller one); entries that lose no mutual conflict
are left exactly as they were. -/
theorem resolve_mutual_conflict (g : List (ℕ × List ℕ)) (A B : ℕ) (hne : A ≠ B)
    (hA : A ∈ g.map Prod.fst) (hAB : B ∈ lookupD g A) (hBA : A ∈ lookupD g B) :
    lookupD (resolveMultiplets g) (pairLoser g A B) = [] ∧
    ((lookupD g A).length < (lookupD g B).length → pairLoser g A B = A) ∧
    ((lookupD g B).length < (lookupD g A).length → pairLoser g A B = B) ∧
    ((lookupD g A).length = (lookupD g B).length →
      pairLoser g A B = max A B ∧ pairLoser g A B ≠ min A B) ∧
    (∀ i, (∀ X Y, X ∈ g.map Prod.fst → Y ∈ lookupD g X → X ∈ lookupD g Y →
        i ≠ pairLoser g X Y) → lookupD (resolveMultiplets g) i = lookupD g i) := by
  refine ⟨?_, ?_, ?_, ?_, ?_⟩
  · rw [lookupD_resolveMultiplets, if_pos]
    rw [mem_removeDecisions]
    exact ⟨A, hA, B, hAB, hBA, rfl⟩
  · intro h
    rw [pairLoser, if_pos h]
  · intro h
    rw [pairLoser, if_neg (by omega), if_pos h]
  · intro h
    have hpl : pairLoser g A B = max A B := by
      rw [pairLoser, if_neg (by omega), if_neg (by omega)]
    refine ⟨hpl, ?_⟩
    rw [hpl]
    omega
  · intro i hno
    rw [lookupD_resolveMultiplets, if_neg]
    rw [mem_removeDecisions]
    rintro ⟨X, hX, Y, hXY, hYX, hi⟩
    exact hno X Y hX hXY hYX hi

def conflictPairExample : List (ℕ × List ℕ) := [(0, [1]), (1, [0, 2]), (2, [])]

/-- Witness for C2: in a concrete graph where `0 ↦ [1]`, `1 ↦ [0, 2]` touch
mutually, the smaller side (index 0, one association) is emptied. -/
theorem resolve_mutual_conflict_witness :
    ((0 : ℕ) ≠ 1 ∧ 0 ∈ conflictPairExample.map Prod.fst ∧
      1 ∈ lookupD conflictPairExample 0 ∧ 0 ∈ lookupD conflictPairExample 1) ∧
    lookupD (resolveMultiplets conflictPairExample) (pairLoser conflictPairExample 0 1) = [] :=
  ⟨by decide, (resolve_mutual_conflict conflictPairExample 0 1 (by decide) (by decide)
    (by decide) (by decide)).1⟩

/-- Modelled from the spec: the removal predicate of the pure two-pass
reference resolver — an index is removed exactly when it loses some mutual
conflict of the original unresolved graph. -/
def specRemove (g : List (ℕ × List ℕ)) (i : ℕ) : Prop :=
  ∃ A ∈ g.map Prod.fst, ∃ B ∈ lookupD g A, A ∈ lookupD g B ∧ i = pairLoser g A B

instance (g : List (ℕ × List ℕ)) (i : ℕ) : Decidable (specRemove g i) :=
  decidable_of_iff
    (∃ A ∈ g.map Prod.fst, ∃ B ∈ lookupD g A, A ∈ lookupD g B ∧ i = pairLoser g A B) Iff.rfl

/-- Modelled from the spec: the pure two-pass reference resolver — decide all
removals from the input graph, then empty exactly the decided entries. -/
def refResolve (g : List (ℕ × List ℕ)) : List (ℕ × List ℕ) :=
  g.map fun pr => if specRemove g pr.1 then (pr.1, ([] : List ℕ)) else pr

lemma mem_removeDecisions_iff_specRemove (g : List (ℕ × List ℕ)) (i : ℕ) :
    i ∈ removeDecisions g ↔ specRemove g i :=
  mem_removeDecisions g i

lemma lookupD_eq_of_perm (g g2 : List (ℕ × List ℕ)) (hnd : (g.map Prod.fst).Nodup)
    (hp : g.Perm g2) (i : ℕ) : lookupD g i = lookupD g2 i := by
  rcases h : g.find? (fun pr => pr.1 == i) with _ | pr
  · have h2 : g2.find? (fun pr => pr.1 == i) = none := by
      rw [List.find?_eq_none]
      intro qr hqr
      exact List.find?_eq_none.mp h qr (hp.mem_iff.mpr hqr)
    rw [lookupD, lookupD, h, h2]
  · have hmem : pr ∈ g := List.mem_of_find?_eq_some h
    have hkey : pr.1 = i := by simpa using List.find?_some h
    rcases h2 : g2.find? (fun pr => pr.1 == i) with _ | qr
    · exfalso
      have := List.find?_eq_none.mp h2 pr (hp.mem_iff.mp hmem)
      simp [hkey] at this
    · have hmem2 : qr ∈ g := hp.mem_iff.mpr (List.mem_of_find?_eq_some h2)
      have hkey2 : qr.1 = i := by simpa using List.find?_some h2
      have heq : qr = pr := List.inj_on_of_nodup_map hnd hmem2 hmem (hkey2.trans hkey.symm)
      rw [lookupD, lookupD, h, h2, heq]

lemma pairLoser_eq_of_perm (g g2 : List (ℕ × List ℕ)) (hnd : (g.map Prod.fst).Nodup)
    (hp : g.Perm g2) (A B : ℕ) : pairLoser g A B = pairLoser g2 A B := by
  rw [pairLoser, pairLoser, lookupD_eq_of_perm g g2 hnd hp A, lookupD_eq_of_perm g g2 hnd hp B]

lemma specRemove_iff_of_perm (g g2 : List (ℕ × List ℕ)) (hnd : (g.map Prod.fst).Nodup)
    (hp : g.Perm g2) (i : ℕ) : specRemove g i ↔ specRemove g2 i := by
  have hnd2 : (g2.map Prod.fst).Nodup := ((hp.map Prod.fst).nodup_iff).mp hnd
  constructor
  · rintro ⟨A, hA, B, hB, hAB, rfl⟩
    exact ⟨A, (hp.map Prod.fst).mem_iff.mp hA, B,
      by rw [← lookupD_eq_of_perm g g2 hnd hp]; exact hB,
      by rw [← lookupD_eq_of_perm g g2 hnd hp]; exact hAB,
      pairLoser_eq_of_perm g g2 hnd hp A B⟩
  · rintro ⟨A, hA, B, hB, hAB, rfl⟩
    exact ⟨A, (hp.map Prod.fst).mem_iff.mpr hA, B,
      by rw [lookupD_eq_of_perm g g2 hnd hp]; exact hB,
      by rw [lookupD_eq_of_perm g g2 hnd hp]; exact hAB,
      (pairLoser_eq_of_perm g g2 hnd hp A B).symm⟩

lemma lookupD_resolve_eq_ref (g : List (ℕ × List ℕ)) (i : ℕ) :
    lookupD (resolveMultiplets g) i = if specRemove g i then [] else lookupD g i := by
  rw [lookupD_resolveMultiplets]
  by_cases hs : specRemove g i
  · rw [if_pos ((mem_removeDecisions_iff_specRemove g i).mpr hs), if_pos hs]
  · rw [if_neg (fun hmem => hs ((mem_removeDecisions_iff_specRemove g i).mp hmem)), if_neg hs]

/-- C6: the resolution pass computes every removal decision from the original
unresolved graph; as a mapping it equals the pure two-pass reference
(decide removals, then apply them), and the result does not depend on the
order in which the alert indices are visited. -/
theorem resolve_order_independent (g g2 : List (ℕ × List ℕ))
    (hnd : (g.map Prod.fst).Nodup) (hp : g.Perm g2) :
    (∀ i, lookupD (resolveMultiplets g) i = lookupD (refResolve g) i) ∧
    (∀ i, lookupD (resolveMultiplets g) i = lookupD (resolveMultiplets g2) i) := by
  constructor
  · intro i
    rw [lookupD_resolve_eq_ref, refResolve, lookupD_emptyIf g (specRemove g) i]
  · intro i
    rw [lookupD_resolve_eq_ref, lookupD_resolve_eq_ref]
    by_cases hs : specRemove g i
    · rw [if_pos hs, if_pos ((specRemove_iff_of_perm g g2 hnd hp i).mp hs)]
    · rw [if_neg hs, if_neg (fun hs2 => hs ((specRemove_iff_of_perm g g2 hnd hp i).mpr hs2)),
        lookupD_eq_of_perm g g2 hnd hp]

def mutualPairGraph : List (ℕ × List ℕ) := [(0, [1]), (1, [0])]

def mutualPairGraphRev : List (ℕ × List ℕ) := [(1, [0]), (0, [1])]

/-- Witness for C6 on a concrete mutual pair, also visited in the reversed
order. -/
theorem resolve_order_independent_witness :
    ((mutualPairGraph.map Prod.fst).Nodup ∧ mutualPairGraph.Perm mutualPairGraphRev) ∧
    lookupD (resolveMultiplets mutualPairGraph) 1 = lookupD (refResolve mutualPairGraph) 1 ∧
    lookupD (resolveMultiplets mutualPairGraph) 1 =
      lookupD (resolveMultiplets mutualPairGraphRev) 1 := by
  have hp : mutualPairGraph.Perm mutualPairGraphRev := List.Perm.swap (1, [0]) (0, [1]) []
  exact ⟨⟨by decide, hp⟩,
    (resolve_order_independent mutualPairGraph mutualPairGraphRev (by decide) hp).1 1,
    (resolve_order_independent mutualPairGraph mutualPairGraphRev (by decide) hp).2 1⟩

/-- C7: resolution is idempotent — a resolved graph contains no remaining
mutual conflict, so resolving it again changes nothing at all. -/
theorem resolve_idempotent (g : List (ℕ × List ℕ)) :
    resolveMultiplets (resolveMultiplets g) = resolveMultiplets g := by
  have hrm : removeDecisions (resolveMultiplets g) = [] := by
    rw [removeDecisions, List.flatMap_eq_nil_iff]
    intro A hA
    rw [keys_resolveMultiplets] at hA
    rw [decisionsFor]
    split
    · rw [List.filterMap_eq_nil_iff]
      intro B hB
      have hno : A ∉ lookupD (resolveMultiplets g) B := by
        intro hBA
        rw [lookupD_resolveMultiplets] at hB hBA
        by_cases hArm : A ∈ removeDecisions g
        · rw [if_pos hArm] at hB
          exact absurd hB (List.not_mem_nil B)
        · rw [if_neg hArm] at hB
          by_cases hBrm : B ∈ removeDecisions g
          · rw [if_pos hBrm] at hBA
            exact absurd hBA (List.not_mem_nil A)
          · rw [if_neg hBrm] at hBA
            have hmem : pairLoser g A B ∈ removeDecisions g :=
              (mem_removeDecisions g _).mpr ⟨A, hA, B, hB, hBA, rfl⟩
            rcases pairLoser_eq_or g A B with hpl | hpl
            · rw [hpl] at hmem
              exact hArm hmem
            · rw [hpl] at hmem
              exact hBrm hmem
      rw [if_neg hno]
    · rfl
  conv_lhs => rw [resolveMultiplets]
  rw [hrm]
  simp

/-! ### Weighted aggregation (lines 148–224) -/

/-- Modelled from the spec: the external numeric primitives the aggregator
delegates to — `astropy.stats.circstats.circmean` (weighted circular mean
over degrees with per-element weights) and `numpy.sqrt`.  Aggregation
theorems assume only the exact-value facts of these primitives that the
spec's external-interface section guarantees. -/
structure AngularStats where
  circmean : List ℚ → List ℚ → ℚ
  sqrt : ℚ → ℚ

/-- `get_weighted_coords(x, sigma)` (lines 148–157): per-axis weighted
circular mean with weights `1/σ²`, reduced mod 360, and the pooled error
`1/sqrt(sum(1/σ²))` per axis. -/
def get_weighted_coords (P : AngularStats) (x sigma : List (ℚ × ℚ)) : (ℚ × ℚ) × (ℚ × ℚ) :=
  ((pymod360 (P.circmean (x.map Prod.fst) (sigma.map fun s => 1 / s.1 ^ 2)),
    pymod360 (P.circmean (x.map Prod.snd) (sigma.map fun s => 1 / s.2 ^ 2))),
   (1 / P.sqrt ((sigma.map fun s => 1 / s.1 ^ 2).sum),
    1 / P.sqrt ((sigma.map fun s => 1 / s.2 ^ 2).sum)))

/-- The symmetrized per-axis error `((ERR_PLUS+ERR_MINUS)/2, …)` collected by
`get_multiplet_weighted_coords` (lines 168–174). -/
def symmErr (a : Alert) : ℚ × ℚ :=
  ((a.RA_ERR_PLUS + a.RA_ERR_MINUS) / 2, (a.DEC_ERR_PLUS + a.DEC_ERR_MINUS) / 2)

/-- `get_multiplet_weighted_coords(orig_index, multipl_indices, alerts)`
(lines 160–179): the representative alert first, then every member, with
positions and symmetrized errors. -/
def get_multiplet_weighted_coords (P : AngularStats) (orig_index : ℕ)
    (multipl_indices : List ℕ) (alerts : ℕ → Alert) : (ℚ × ℚ) × (ℚ × ℚ) :=
  get_weighted_coords P
    ((orig_index :: multipl_indices).map fun j => ((alerts j).RA, (alerts j).DEC))
    ((orig_index :: multipl_indices).map fun j => symmErr (alerts j))

/-- `go_through_multiplet_dict(multiplet_dict, alerts)` (lines 182–204):
aggregate each group with a non-empty member list into the two output dicts;
groups with an empty member list are skipped. -/
def go_through_multiplet_dict (P : AngularStats) (md : List (ℕ × List ℕ))
    (alerts : ℕ → Alert) : List (ℕ × (ℚ × ℚ)) × List (ℕ × (ℚ × ℚ)) :=
  (md.filterMap fun pr =>
    if 0 < pr.2.length then some (pr.1, (get_multiplet_weighted_coords P pr.1 pr.2 alerts).1)
    else none,
   md.filterMap fun pr =>
    if 0 < pr.2.length then some (pr.1, (get_multiplet_weighted_coords P pr.1 pr.2 alerts).2)
    else none)

/-- Association-list lookup for the aggregation outputs. -/
def lookupA {α : Type} (l : List (ℕ × α)) (i : ℕ) : Option α :=
  (l.find? fun pr => pr.1 == i).map Prod.snd

lemma lookupA_cons {α : Type} (hd : ℕ × α) (tl : List (ℕ × α)) (i : ℕ) :
    lookupA (hd :: tl) i = if hd.1 = i then some hd.2 else lookupA tl i := by
  by_cases h : hd.1 = i <;> simp [lookupA, List.find?_cons, h]

lemma lookupA_filterMap_not_key {α : Type} (md : List (ℕ × List ℕ)) (F : ℕ → List ℕ → α)
    (i : ℕ) (h : i ∉ md.map Prod.fst) :
    lookupA (md.filterMap fun pr =>
      if 0 < pr.2.length then some (pr.1, F pr.1 pr.2) else none) i = none := by
  rw [lookupA]
  have hfind : (md.filterMap fun pr =>
      if 0 < pr.2.length then some (pr.1, F pr.1 pr.2) else none).find?
        (fun pr => pr.1 == i) = none := by
    rw [List.find?_eq_none]
    intro x hx
    rw [List.mem_filterMap] at hx
    obtain ⟨pr, hpr, hsome⟩ := hx
    by_cases hl : 0 < pr.2.length
    · rw [if_pos hl] at hsome
      obtain rfl := Option.some_inj.mp hsome.symm
      simp only [beq_iff_eq]
      intro hc
      exact h (hc ▸ List.mem_map_of_mem Prod.fst hpr)
    · rw [if_neg hl] at hsome
      cases hsome
  rw [hfind]
  rfl

lemma lookupA_filterMap_guard {α : Type} (md : List (ℕ × List ℕ)) (F : ℕ → List ℕ → α)
    (hnd : (md.map Prod.fst).Nodup) (i : ℕ) (mems : List ℕ) (h : (i, mems) ∈ md) :
    lookupA (md.filterMap fun pr =>
      if 0 < pr.2.length then some (pr.1, F pr.1 pr.2) else none) i =
      if 0 < mems.length then some (F i mems) else none := by
  induction md with
  | nil => cases h
  | cons hd tl ih =>
    rw [List.map_cons, List.nodup_cons] at hnd
    rcases List.mem_cons.mp h with heq | htl
    · have hkey : hd.1 = i := by rw [← heq]
      have hval : hd.2 = mems := by rw [← heq]
      by_cases hlen : 0 < hd.2.length
      · rw [List.filterMap_cons_some (by rw [if_pos hlen]), lookupA_cons, if_pos hkey,
          ← hval, if_pos hlen, hkey]
      · rw [List.filterMap_cons_none (by rw [if_neg hlen]), ← hval, if_neg hlen]
        exact lookupA_filterMap_not_key tl F i (hkey ▸ hnd.1)
    · have hne : hd.1 ≠ i := by
        intro hc
        exact hnd.1 (hc ▸ List.mem_map_of_mem Prod.fst htl)
      by_cases hlen : 0 < hd.2.length
      · rw [List.filterMap_cons_some (by rw [if_pos hlen]), lookupA_cons, if_neg hne]
        exact ih hnd.2 htl
      · rw [List.filterMap_cons_none (by rw [if_neg hlen])]
        exact ih hnd.2 htl

lemma get_multiplet_weighted_coords_eq (P : AngularStats) (i : ℕ) (mems : List ℕ)
    (alerts : ℕ → Alert) :
    get_multiplet_weighted_coords P i mems alerts =
      ((pymod360 (P.circmean ((i :: mems).map fun j => (alerts j).RA)
          ((i :: mems).map fun j => 1 / ((symmErr (alerts j)).1) ^ 2)),
        pymod360 (P.circmean ((i :: mems).map fun j => (alerts j).DEC)
          ((i :: mems).map fun j => 1 / ((symmErr (alerts j)).2) ^ 2))),
       (1 / P.sqrt (((i :: mems).map fun j => 1 / ((symmErr (alerts j)).1) ^ 2).sum),
        1 / P.sqrt (((i :: mems).map fun j => 1 / ((symmErr (alerts j)).2) ^ 2).sum))) := by
  rw [get_multiplet_weighted_coords, get_weighted_coords]
  simp only [List.map_map]
  rfl

/-- C3: for a group with representative `i` and a non-empty member list, the
aggregator's output at key `i` is the inverse-variance-weighted circular mean
of the representative's and every member's coordinates (weights `1/σ²` of the
symmetrized errors), per axis, reduced mod 360, with pooled uncertainty
`1/sqrt(sum 1/σ²)` per axis; a group with an empty member list produces no
output entry at all. -/
theorem go_through_multiplet_dict_spec (P : AngularStats) (md : List (ℕ × List ℕ))
    (alerts : ℕ → Alert) (hnd : (md.map Prod.fst).Nodup) (i : ℕ) (mems : List ℕ)
    (hmem : (i, mems) ∈ md) :
    (mems ≠ [] →
      lookupA (go_through_multiplet_dict P md alerts).1 i =
        some (pymod360 (P.circmean ((i :: mems).map fun j => (alerts j).RA)
                ((i :: mems).map fun j => 1 / ((symmErr (alerts j)).1) ^ 2)),
              pymod360 (P.circmean ((i :: mems).map fun j => (alerts j).DEC)
                ((i :: mems).map fun j => 1 / ((symmErr (alerts j)).2) ^ 2))) ∧
      lookupA (go_through_multiplet_dict P md alerts).2 i =
        some (1 / P.sqrt (((i :: mems).map fun j => 1 / ((symmErr (alerts j)).1) ^ 2).sum),
              1 / P.sqrt (((i :: mems).map fun j => 1 / ((symmErr (alerts j)).2) ^ 2).sum))) ∧
    (mems = [] →
      lookupA (go_through_multiplet_dict P md alerts).1 i = none ∧
      lookupA (go_through_multiplet_dict P md alerts).2 i = none) := by
  have h1 := lookupA_filterMap_guard md
    (fun a b => (get_multiplet_weighted_coords P a b alerts).1) hnd i mems hmem
  have h2 := lookupA_filterMap_guard md
    (fun a b => (get_multiplet_weighted_coords P a b alerts).2) hnd i mems hmem
  constructor
  · intro hne
    have hlen : 0 < mems.length := List.length_pos.mpr hne
    rw [if_pos hlen] at h1 h2
    exact ⟨h1.trans (by simp only [get_multiplet_weighted_coords_eq]),
      h2.trans (by simp only [get_multiplet_weighted_coords_eq])⟩
  · intro hemp
    subst hemp
    rw [if_neg (by simp)] at h1
    rw [if_neg (by simp)] at h2
    exact ⟨h1, h2⟩

/-- A concrete instance of the external primitives, used in concrete
instantiations: its circular mean returns the first angle reduced to
`[0, 360)` — the correct weighted circular mean of a single-angle list up to
full turns — and its `sqrt` is the identity, which is correct at the
argument `1` where these instantiations consult it. -/
def refStats : AngularStats :=
  ⟨fun vals _ => pymod360 (vals.headD 0), id⟩

def aggExampleDict : List (ℕ × List ℕ) := [(5, [7]), (9, [])]

def aggExampleAlerts : ℕ → Alert := fun n => ⟨n, n, 1, 1, 1, 1⟩

/-- Witness for C3 at a concrete dict: the entry `9 ↦ []` yields no output in
either result dict. -/
theorem go_through_multiplet_dict_spec_witness :
    ((aggExampleDict.map Prod.fst).Nodup ∧ (9, ([] : List ℕ)) ∈ aggExampleDict) ∧
    (lookupA (go_through_multiplet_dict refStats aggExampleDict aggExampleAlerts).1 9 = none ∧
     lookupA (go_through_multiplet_dict refStats aggExampleDict aggExampleAlerts).2 9 = none) :=
  ⟨by decide, (go_through_multiplet_dict_spec refStats aggExampleDict aggExampleAlerts
    (by decide) 9 [] (by decide)).2 rfl⟩

/-- C8 (amended): aggregating the degenerate group of one alert with zero
members returns the alert's position reduced mod 360 per axis — equal to the
original position exactly when both coordinates already lie in `[0, 360)` —
and its symmetrized errors unchanged.  The hypotheses are the exact-value
facts of the external primitives: a weighted circular mean of one angle is
that angle up to full turns, and `sqrt` is exact on the rational square
`1/σ²`. -/
theorem single_member_group_roundtrip (P : AngularStats) (alerts : ℕ → Alert) (i : ℕ)
    (hc : ∀ v w : ℚ, pymod360 (P.circmean [v] [w]) = pymod360 v)
    (hsra : P.sqrt (1 / ((symmErr (alerts i)).1) ^ 2) = 1 / (symmErr (alerts i)).1)
    (hsdec : P.sqrt (1 / ((symmErr (alerts i)).2) ^ 2) = 1 / (symmErr (alerts i)).2) :
    get_multiplet_weighted_coords P i [] alerts =
      ((pymod360 (alerts i).RA, pymod360 (alerts i).DEC), symmErr (alerts i)) := by
  rw [get_multiplet_weighted_coords_eq]
  simp only [List.map_cons, List.map_nil, List.sum_cons, List.sum_nil, add_zero]
  rw [hc, hc, hsra, hsdec, one_div_one_div, one_div_one_div, Prod.mk.eta]

/-- The alert at `DEC = -30` on which C8 as stated fails. -/
def negDecAlert : Alert := ⟨10, -30, 1, 1, 1, 1⟩

lemma pymod360_neg_30 : pymod360 (-30) = 330 := by
  rw [pymod360_def]
  have hz : ⌊(-30 : ℚ) / 360⌋ = -1 := by norm_num
  rw [hz]
  norm_num

/-- Counterexample to C8 as stated: with the modelled circular mean, the
degenerate group of an alert at `DEC = -30` comes back with `DEC = 330`
(the source reduces both axes mod 360), not with the alert's own position. -/
theorem single_member_group_counterexample :
    get_multiplet_weighted_coords refStats 0 [] (fun _ => negDecAlert) ≠
      ((negDecAlert.RA, negDecAlert.DEC), symmErr negDecAlert) := by
  rw [get_multiplet_weighted_coords_eq]
  intro h
  have h2 := congrArg (fun q : (ℚ × ℚ) × ℚ × ℚ => q.1.2) h
  simp only [List.map_cons, List.map_nil] at h2
  have hcm : ∀ w : List ℚ, refStats.circmean [negDecAlert.DEC] w = pymod360 negDecAlert.DEC :=
    fun w => rfl
  rw [hcm, pymod360_idem] at h2
  have hdec : negDecAlert.DEC = -30 := rfl
  rw [hdec, pymod360_neg_30] at h2
  norm_num at h2

/-- The alert used in the C8 witness (both coordinates in `[0, 360)`). -/
def roundtripAlert : Alert := ⟨50, 60, 1, 1, 1, 1⟩

/-- Witness for C8 (amended) at a concrete alert, with the primitive
hypotheses discharged for the modelled primitives. -/
theorem single_member_group_roundtrip_witness :
    (refStats.sqrt (1 / ((symmErr roundtripAlert).1) ^ 2) = 1 / (symmErr roundtripAlert).1) ∧
    get_multiplet_weighted_coords refStats 0 [] (fun _ => roundtripAlert) =
      ((pymod360 roundtripAlert.RA, pymod360 roundtripAlert.DEC), symmErr roundtripAlert) := by
  have hc : ∀ v w : ℚ, pymod360 (refStats.circmean [v] [w]) = pymod360 v := by
    intro v w
    show pymod360 (pymod360 ([v].headD 0)) = pymod360 v
    rw [List.headD_cons, pymod360_idem]
  have hs1 : refStats.sqrt (1 / ((symmErr roundtripAlert).1) ^ 2) =
      1 / (symmErr roundtripAlert).1 := by
    norm_num [refStats, symmErr, roundtripAlert]
  have hs2 : refStats.sqrt (1 / ((symmErr roundtripAlert).2) ^ 2) =
      1 / (symmErr roundtripAlert).2 := by
    norm_num [refStats, symmErr, roundtripAlert]
  exact ⟨hs1, single_member_group_roundtrip refStats (fun _ => roundtripAlert) 0 hc hs1 hs2⟩

/-- `go_through_threshold_multiplet_dict(threshold_multiplet_dict, alerts)`
(lines 207–224).  Each value of the threshold-keyed dict is a pair whose
second component (`[1]`) is that threshold's pre-filtered multiplet dict.
The loop body stores results under `tmp_threshold`, a name that is never
defined: the first threshold whose aggregation is non-empty raises
`NameError`, modelled as `none`; when every aggregation is empty the loop
finishes and returns two empty dicts. -/
def go_through_threshold_multiplet_dict (P : AngularStats)
    (td : List (ℚ × (ℚ × List (ℕ × List ℕ)))) (alerts : ℕ → Alert) :
    Option (List (ℚ × List (ℕ × (ℚ × ℚ))) × List (ℚ × List (ℕ × (ℚ × ℚ)))) :=
  if td.any fun e => decide (0 < ((go_through_multiplet_dict P e.2.2 alerts).1).length)
  then none
  else some ([], [])

/-- C5 (the code as written): on a threshold dict whose single threshold
carries the non-empty group `0 ↦ [7]`, the variant raises `NameError`
(modelled `none`) instead of returning results keyed by that threshold. -/
theorem threshold_variant_name_error :
    go_through_threshold_multiplet_dict refStats [(1/2, (0, [(0, [7])]))] aggExampleAlerts =
      none := by
  rw [go_through_threshold_multiplet_dict, if_pos]
  rw [List.any_eq_true]
  exact ⟨(1/2, (0, [(0, [7])])), List.mem_singleton.mpr rfl, by decide⟩

/-! ### Overlap graph builder (lines 68–119) -/

/-- `np.linspace(theta, theta + 90, 20)` (line 94): 20 evenly spaced angles,
both endpoints included. -/
def boundaryAngles (θ : ℚ) : List ℚ :=
  (List.range 20).map fun k => θ + (k : ℚ) * (90 / 19)

/-- Keep-first-occurrence deduplication (`pandas.Index.drop_duplicates`). -/
def dedupFirst (l : List ℕ) : List ℕ :=
  l.foldl (fun acc x => if x ∈ acc then acc else acc ++ [x]) []

lemma mem_dedupFirst_aux (l acc : List ℕ) (x : ℕ) :
    (x ∈ l.foldl (fun acc y => if y ∈ acc then acc else acc ++ [y]) acc) ↔
      x ∈ acc ∨ x ∈ l := by
  induction l generalizing acc with
  | nil => simp
  | cons hd tl ih =>
    rw [List.foldl_cons, ih]
    by_cases h : hd ∈ acc
    · rw [if_pos h]
      constructor
      · rintro (hx | hx)
        · exact Or.inl hx
        · exact Or.inr (List.mem_cons_of_mem hd hx)
      · rintro (hx | hx)
        · exact Or.inl hx
        · rcases List.mem_cons.mp hx with hx | hx
          · exact Or.inl (hx ▸ h)
          · exact Or.inr hx
    · rw [if_neg h]
      constructor
      · rintro (hx | hx)
        · rcases List.mem_append.mp hx with hx | hx
          · exact Or.inl hx
          · exact Or.inr (List.mem_cons.mpr (Or.inl (List.mem_singleton.mp hx)))
        · exact Or.inr (List.mem_cons_of_mem hd hx)
      · rintro (hx | hx)
        · exact Or.inl (List.mem_append.mpr (Or.inl hx))
        · rcases List.mem_cons.mp hx with hx | hx
          · exact Or.inl (List.mem_append.mpr (Or.inr (List.mem_singleton.mpr hx)))
          · exact Or.inr hx

lemma mem_dedupFirst (l : List ℕ) (x : ℕ) : x ∈ dedupFirst l ↔ x ∈ l := by
  rw [dedupFirst, mem_dedupFirst_aux]
  simp

lemma nodup_dedupFirst_aux (l acc : List ℕ) (hacc : acc.Nodup) :
    (l.foldl (fun acc y => if y ∈ acc then acc else acc ++ [y]) acc).Nodup := by
  induction l generalizing acc with
  | nil => simpa
  | cons hd tl ih =>
    rw [List.foldl_cons]
    apply ih
    by_cases h : hd ∈ acc
    · rwa [if_pos h]
    · rw [if_neg h]
      refine hacc.append (List.nodup_singleton hd) ?_
      intro y hy hz
      rw [List.mem_singleton] at hz
      exact h (hz ▸ hy)

lemma nodup_dedupFirst (l : List ℕ) : (dedupFirst l).Nodup :=
  nodup_dedupFirst_aux l [] List.nodup_nil

/-- The indices whose quadrant-`θ` boundary sample (20 parametric points per
alert, lines 94–102) has some point inside the probe alert's ellipse
(lines 104–107); `eRA`/`eDEC` are the quadrant's error columns from the zip
of lines 90–92. -/
def quadrantHits (cosd sind : ℚ → ℚ) (cat : List (ℕ × Alert)) (probe : ℕ × Alert)
    (θ : ℚ) (eRA eDEC : Alert → ℚ) : List ℕ :=
  (cat.filter fun pr =>
    (boundaryAngles θ).any fun t =>
      is_in_ellipse ⟨eRA pr.2 * cosd t + pr.2.RA, eDEC pr.2 * sind t + pr.2.DEC⟩
        probe.2.RA probe.2.DEC (probe.2.RA_ERR_PLUS, -probe.2.RA_ERR_MINUS)
        (probe.2.DEC_ERR_PLUS, -probe.2.DEC_ERR_MINUS)).map Prod.fst

/-- One iteration of the quadrant loop (lines 90–117): when any sampled point
is inside (`np.any`), append the hit indices to the accumulator,
deduplicate, and drop the probe's own index when present. -/
def quadStep (cosd sind : ℚ → ℚ) (cat : List (ℕ × Alert)) (probe : ℕ × Alert)
    (θ : ℚ) (eRA eDEC : Alert → ℚ) (acc : Option (List ℕ)) : Option (List ℕ) :=
  if quadrantHits cosd sind cat probe θ eRA eDEC = [] then acc
  else
    some (if probe.1 ∈ dedupFirst (acc.getD [] ++ quadrantHits cosd sind cat probe θ eRA eDEC)
      then (dedupFirst (acc.getD [] ++ quadrantHits cosd sind cat probe θ eRA eDEC)).erase probe.1
      else dedupFirst (acc.getD [] ++ quadrantHits cosd sind cat probe θ eRA eDEC))

/-- `alerts_in_ellipse` after the four quadrant iterations (lines 87–117);
`none` is Python's `None` (no quadrant had any hit at all). -/
def touchingForOpt (cosd sind : ℚ → ℚ) (cat : List (ℕ × Alert)) (probe : ℕ × Alert) :
    Option (List ℕ) :=
  quadStep cosd sind cat probe 270 Alert.RA_ERR_PLUS Alert.DEC_ERR_MINUS
    (quadStep cosd sind cat probe 180 Alert.RA_ERR_MINUS Alert.DEC_ERR_MINUS
      (quadStep cosd sind cat probe 90 Alert.RA_ERR_MINUS Alert.DEC_ERR_PLUS
        (quadStep cosd sind cat probe 0 Alert.RA_ERR_PLUS Alert.DEC_ERR_PLUS none)))

/-- The pre-resolution touching list of one probe alert.  A `None` entry (no
quadrant hit anywhere) would make the resolution pass raise `TypeError` in
the source; it is read as the empty list here, and the proved statements
only inspect entries that are provably non-`None`. -/
def touchingFor (cosd sind : ℚ → ℚ) (cat : List (ℕ × Alert)) (probe : ℕ × Alert) : List ℕ :=
  (touchingForOpt cosd sind cat probe).getD []

/-- `get_multiplet_index_dictionary(alerts)` (lines 68–145): the adjacency
dict over every probe alert, then the mutual-conflict resolution pass. -/
def get_multiplet_index_dictionary (cosd sind : ℚ → ℚ) (cat : List (ℕ × Alert)) :
    List (ℕ × List ℕ) :=
  resolveMultiplets (cat.map fun pr => (pr.1, touchingFor cosd sind cat pr))

lemma mem_quadStep_of_mem_hits (cosd sind : ℚ → ℚ) (cat : List (ℕ × Alert))
    (probe : ℕ × Alert) (θ : ℚ) (eRA eDEC : Alert → ℚ) (acc : Option (List ℕ)) (x : ℕ)
    (hx : x ∈ quadrantHits cosd sind cat probe θ eRA eDEC) (hne : x ≠ probe.1) :
    x ∈ (quadStep cosd sind cat probe θ eRA eDEC acc).getD [] := by
  rw [quadStep, if_neg (List.ne_nil_of_mem hx)]
  simp only [Option.getD_some]
  have hxm : x ∈ dedupFirst (acc.getD [] ++ quadrantHits cosd sind cat probe θ eRA eDEC) :=
    (mem_dedupFirst _ _).mpr (List.mem_append.mpr (Or.inr hx))
  split
  · exact (List.mem_erase_of_ne hne).mpr hxm
  · exact hxm

lemma mem_quadStep_of_mem_acc (cosd sind : ℚ → ℚ) (cat : List (ℕ × Alert))
    (probe : ℕ × Alert) (θ : ℚ) (eRA eDEC : Alert → ℚ) (acc : Option (List ℕ)) (x : ℕ)
    (hx : x ∈ acc.getD []) (hne : x ≠ probe.1) :
    x ∈ (quadStep cosd sind cat probe θ eRA eDEC acc).getD [] := by
  rw [quadStep]
  by_cases hh : quadrantHits cosd sind cat probe θ eRA eDEC = []
  · rw [if_pos hh]
    exact hx
  · rw [if_neg hh]
    simp only [Option.getD_some]
    have hxm : x ∈ dedupFirst (acc.getD [] ++ quadrantHits cosd sind cat probe θ eRA eDEC) :=
      (mem_dedupFirst _ _).mpr (List.mem_append.mpr (Or.inl hx))
    split
    · exact (List.mem_erase_of_ne hne).mpr hxm
    · exact hxm

lemma quadStep_inv (cosd sind : ℚ → ℚ) (cat : List (ℕ × Alert)) (probe : ℕ × Alert)
    (θ : ℚ) (eRA eDEC : Alert → ℚ) (acc : Option (List ℕ))
    (h1 : (acc.getD []).Nodup) (h2 : ∀ x ∈ acc.getD [], x ∈ cat.map Prod.fst)
    (h3 : probe.1 ∉ acc.getD []) :
    ((quadStep cosd sind cat probe θ eRA eDEC acc).getD []).Nodup ∧
    (∀ x ∈ (quadStep cosd sind cat probe θ eRA eDEC acc).getD [], x ∈ cat.map Prod.fst) ∧
    probe.1 ∉ (quadStep cosd sind cat probe θ eRA eDEC acc).getD [] := by
  rw [quadStep]
  by_cases hh : quadrantHits cosd sind cat probe θ eRA eDEC = []
  · rw [if_pos hh]
    exact ⟨h1, h2, h3⟩
  · rw [if_neg hh]
    simp only [Option.getD_some]
    have hmn : (dedupFirst (acc.getD [] ++ quadrantHits cosd sind cat probe θ eRA eDEC)).Nodup :=
      nodup_dedupFirst _
    have hsub : ∀ x ∈ dedupFirst (acc.getD [] ++ quadrantHits cosd sind cat probe θ eRA eDEC),
        x ∈ cat.map Prod.fst := by
      intro x hx
      rw [mem_dedupFirst, List.mem_append] at hx
      rcases hx with hx | hx
      · exact h2 x hx
      · rw [quadrantHits, List.mem_map] at hx
        obtain ⟨pr, hpr, rfl⟩ := hx
        exact List.mem_map_of_mem Prod.fst (List.mem_of_mem_filter hpr)
    split
    · refine ⟨hmn.erase _, fun x hx => hsub x (List.mem_of_mem_erase hx), ?_⟩
      rw [hmn.mem_erase_iff]
      simp
    · next hmem => exact ⟨hmn, hsub, hmem⟩

lemma touchingFor_inv (cosd sind : ℚ → ℚ) (cat : List (ℕ × Alert)) (probe : ℕ × Alert) :
    (touchingFor cosd sind cat probe).Nodup ∧
    (∀ x ∈ touchingFor cosd sind cat probe, x ∈ cat.map Prod.fst) ∧
    probe.1 ∉ touchingFor cosd sind cat probe := by
  rw [touchingFor, touchingForOpt]
  have h0a : ((none : Option (List ℕ)).getD []).Nodup := List.nodup_nil
  have h0b : ∀ x ∈ (none : Option (List ℕ)).getD [], x ∈ cat.map Prod.fst := by simp
  have h0c : probe.1 ∉ (none : Option (List ℕ)).getD [] := by simp
  have i1 := quadStep_inv cosd sind cat probe 0 Alert.RA_ERR_PLUS Alert.DEC_ERR_PLUS none
    h0a h0b h0c
  have i2 := quadStep_inv cosd sind cat probe 90 Alert.RA_ERR_MINUS Alert.DEC_ERR_PLUS _
    i1.1 i1.2.1 i1.2.2
  have i3 := quadStep_inv cosd sind cat probe 180 Alert.RA_ERR_MINUS Alert.DEC_ERR_MINUS _
    i2.1 i2.2.1 i2.2.2
  exact quadStep_inv cosd sind cat probe 270 Alert.RA_ERR_PLUS Alert.DEC_ERR_MINUS _
    i3.1 i3.2.1 i3.2.2

lemma eq_single_of_nodup_subset (l : List ℕ) (j : ℕ) (hnd : l.Nodup) (hmem : j ∈ l)
    (hsub : ∀ x ∈ l, x = j) : l = [j] := by
  cases l with
  | nil => cases hmem
  | cons a t =>
    have ha : a = j := hsub a (List.mem_cons_self a t)
    subst ha
    have ht : t = [] := by
      cases t with
      | nil => rfl
      | cons b t2 =>
        have hb : b = a := hsub b (by simp)
        rw [List.nodup_cons] at hnd
        exact absurd (by rw [← hb]; exact List.mem_cons_self b t2) hnd.1
    rw [ht]

lemma is_in_ellipse_of_mask1 (p : Point) (ra dec : ℚ) (raE decE : ℚ × ℚ)
    (h : quadMask1 (tmpRA p.RA ra (min raE.1 raE.2) (max raE.1 raE.2)) (p.DEC - dec)
      (max raE.1 raE.2) (max decE.1 decE.2) = true) :
    is_in_ellipse p ra dec raE decE = true := by
  rw [is_in_ellipse]
  simp [h]

lemma tmpRA_self (ra rmin rmax : ℚ) : tmpRA ra ra rmin rmax = 0 := by
  simp only [tmpRA, sub_self]
  rw [show (if 360 ≤ ra + rmax then pymod360 0 else 0) = 0 by split <;> simp [pymod360_zero]]
  split
  · rw [neg_zero, pymod360_zero, neg_zero]
  · rfl

lemma quadMask1_origin (a b : ℚ) (ha : 0 < a) (hb : 0 < b) : quadMask1 0 0 a b = true := by
  simp only [quadMask1, contourLe, Bool.and_eq_true, decide_eq_true_eq]
  refine ⟨⟨⟨le_refl 0, le_of_lt ha⟩, le_refl 0, le_of_lt hb⟩, ⟨ne_of_gt ha, ne_of_gt hb⟩, ?_⟩
  rw [zero_pow (by norm_num : (2:ℕ) ≠ 0), zero_div, zero_div]
  norm_num

lemma quadMask1_top (a b : ℚ) (ha : 0 < a) (hb : 0 < b) : quadMask1 0 b a b = true := by
  simp only [quadMask1, contourLe, Bool.and_eq_true, decide_eq_true_eq]
  refine ⟨⟨⟨le_refl 0, le_of_lt ha⟩, le_of_lt hb, le_refl b⟩, ⟨ne_of_gt ha, ne_of_gt hb⟩, ?_⟩
  rw [zero_pow (by norm_num : (2:ℕ) ≠ 0), zero_div,
    div_self (pow_ne_zero 2 (ne_of_gt hb))]
  norm_num

lemma same_center_point_inside (a : Alert) (pra pdec : ℚ) (hpra : pra = a.RA)
    (hpdec : pdec = a.DEC + a.DEC_ERR_PLUS)
    (hp1 : 0 < a.RA_ERR_PLUS) (hp2 : 0 < a.RA_ERR_MINUS)
    (hp3 : 0 < a.DEC_ERR_PLUS) (hp4 : 0 < a.DEC_ERR_MINUS) :
    is_in_ellipse ⟨pra, pdec⟩ a.RA a.DEC (a.RA_ERR_PLUS, -a.RA_ERR_MINUS)
      (a.DEC_ERR_PLUS, -a.DEC_ERR_MINUS) = true := by
  subst hpra hpdec
  apply is_in_ellipse_of_mask1
  dsimp only
  rw [max_eq_left (by linarith : -a.RA_ERR_MINUS ≤ a.RA_ERR_PLUS),
    min_eq_right (by linarith : -a.RA_ERR_MINUS ≤ a.RA_ERR_PLUS),
    max_eq_left (by linarith : -a.DEC_ERR_MINUS ≤ a.DEC_ERR_PLUS),
    tmpRA_self, show a.DEC + a.DEC_ERR_PLUS - a.DEC = a.DEC_ERR_PLUS by ring]
  exact quadMask1_top a.RA_ERR_PLUS a.DEC_ERR_PLUS hp1 hp3

lemma mem_touchingFor_same_center (cosd sind : ℚ → ℚ) (hc90 : cosd 90 = 0)
    (hs90 : sind 90 = 1) (cat : List (ℕ × Alert)) (iA iB : ℕ) (a b : Alert)
    (hmemB : (iB, b) ∈ cat) (hne : iB ≠ iA)
    (hra : a.RA = b.RA) (hdec : a.DEC = b.DEC) (h3 : a.DEC_ERR_PLUS = b.DEC_ERR_PLUS)
    (hp1 : 0 < a.RA_ERR_PLUS) (hp2 : 0 < a.RA_ERR_MINUS)
    (hp3 : 0 < a.DEC_ERR_PLUS) (hp4 : 0 < a.DEC_ERR_MINUS) :
    iB ∈ touchingFor cosd sind cat (iA, a) := by
  have h90 : (90 : ℚ) ∈ boundaryAngles 0 := by
    have h19 : (90 : ℚ) = 0 + ((19 : ℕ) : ℚ) * (90 / 19) := by norm_num
    rw [h19, boundaryAngles]
    exact List.mem_map_of_mem (fun k : ℕ => (0 : ℚ) + (k : ℚ) * (90 / 19))
      (List.mem_range.mpr (by norm_num : (19 : ℕ) < 20))
  have hin : is_in_ellipse
      ⟨Alert.RA_ERR_PLUS b * cosd 90 + b.RA, Alert.DEC_ERR_PLUS b * sind 90 + b.DEC⟩
      (iA, a).2.RA (iA, a).2.DEC ((iA, a).2.RA_ERR_PLUS, -(iA, a).2.RA_ERR_MINUS)
      ((iA, a).2.DEC_ERR_PLUS, -(iA, a).2.DEC_ERR_MINUS) = true := by
    apply same_center_point_inside a _ _ ?_ ?_ hp1 hp2 hp3 hp4
    · rw [hc90, mul_zero, zero_add]
      exact hra.symm
    · rw [hs90, mul_one, ← hdec, ← h3]
      ring
  have hhit : iB ∈ quadrantHits cosd sind cat (iA, a) 0 Alert.RA_ERR_PLUS Alert.DEC_ERR_PLUS := by
    rw [quadrantHits]
    exact List.mem_map_of_mem Prod.fst (List.mem_filter.mpr
      ⟨hmemB, by rw [List.any_eq_true]; exact ⟨90, h90, hin⟩⟩)
  rw [touchingFor, touchingForOpt]
  refine mem_quadStep_of_mem_acc cosd sind cat (iA, a) 270 Alert.RA_ERR_PLUS
    Alert.DEC_ERR_MINUS _ iB ?_ hne
  refine mem_quadStep_of_mem_acc cosd sind cat (iA, a) 180 Alert.RA_ERR_MINUS
    Alert.DEC_ERR_MINUS _ iB ?_ hne
  refine mem_quadStep_of_mem_acc cosd sind cat (iA, a) 90 Alert.RA_ERR_MINUS
    Alert.DEC_ERR_PLUS _ iB ?_ hne
  exact mem_quadStep_of_mem_hits cosd sind cat (iA, a) 0 Alert.RA_ERR_PLUS
    Alert.DEC_ERR_PLUS none iB hhit hne

/-- C9 (amended): two alerts with identical position and identical positive
error magnitudes each appear in the other's pre-resolution touching list;
the mapping returned by `get_multiplet_index_dictionary` afterwards keeps at
most one direction of the pair, because resolution empties one side. -/
theorem symmetric_touch_pre_resolution (cosd sind : ℚ → ℚ)
    (hc90 : cosd 90 = 0) (hs90 : sind 90 = 1)
    (cat : List (ℕ × Alert)) (iA iB : ℕ) (a b : Alert)
    (hmemA : (iA, a) ∈ cat) (hmemB : (iB, b) ∈ cat) (hne : iA ≠ iB)
    (hra : a.RA = b.RA) (hdec : a.DEC = b.DEC)
    (h1 : a.RA_ERR_PLUS = b.RA_ERR_PLUS) (h2 : a.RA_ERR_MINUS = b.RA_ERR_MINUS)
    (h3 : a.DEC_ERR_PLUS = b.DEC_ERR_PLUS) (h4 : a.DEC_ERR_MINUS = b.DEC_ERR_MINUS)
    (hp1 : 0 < a.RA_ERR_PLUS) (hp2 : 0 < a.RA_ERR_MINUS)
    (hp3 : 0 < a.DEC_ERR_PLUS) (hp4 : 0 < a.DEC_ERR_MINUS) :
    iB ∈ touchingFor cosd sind cat (iA, a) ∧ iA ∈ touchingFor cosd sind cat (iB, b) := by
  constructor
  · exact mem_touchingFor_same_center cosd sind hc90 hs90 cat iA iB a b hmemB
      (Ne.symm hne) hra hdec h3 hp1 hp2 hp3 hp4
  · exact mem_touchingFor_same_center cosd sind hc90 hs90 cat iB iA b a hmemA
      hne hra.symm hdec.symm h3.symm (h1 ▸ hp1) (h2 ▸ hp2) (h3 ▸ hp3) (h4 ▸ hp4)

/-- An exact-value stand-in for cosine in degrees, agreeing with it at the
multiples of 90° that the concrete instantiations sample. -/
def cosd0 (t : ℚ) : ℚ :=
  if t = 0 ∨ t = 360 then 1 else if t = 180 then -1 else 0

/-- An exact-value stand-in for sine in degrees, agreeing with it at the
multiples of 90° that the concrete instantiations sample. -/
def sind0 (t : ℚ) : ℚ :=
  if t = 90 then 1 else if t = 270 then -1 else 0

def twinAlert : Alert := ⟨10, 20, 1, 1, 1, 1⟩

def twinCat : List (ℕ × Alert) := [(0, twinAlert), (1, twinAlert)]

/-- Counterexample to C9 as stated: for two identical alerts the mapping
*returned* by `get_multiplet_index_dictionary` does not report each alert in
the other's touching set — resolution has emptied the larger index's side. -/
theorem symmetric_touch_counterexample :
    ¬(1 ∈ lookupD (get_multiplet_index_dictionary cosd0 sind0 twinCat) 0 ∧
      0 ∈ lookupD (get_multiplet_index_dictionary cosd0 sind0 twinCat) 1) := by
  have hc90 : cosd0 90 = 0 := by norm_num [cosd0]
  have hs90 : sind0 90 = 1 := by norm_num [sind0]
  have hmem0 : (1 : ℕ) ∈ touchingFor cosd0 sind0 twinCat (0, twinAlert) :=
    mem_touchingFor_same_center cosd0 sind0 hc90 hs90 twinCat 0 1 twinAlert twinAlert
      (by simp [twinCat]) (by norm_num) rfl rfl rfl
      (by norm_num [twinAlert]) (by norm_num [twinAlert]) (by norm_num [twinAlert])
      (by norm_num [twinAlert])
  have hmem1 : (0 : ℕ) ∈ touchingFor cosd0 sind0 twinCat (1, twinAlert) :=
    mem_touchingFor_same_center cosd0 sind0 hc90 hs90 twinCat 1 0 twinAlert twinAlert
      (by simp [twinCat]) (by norm_num) rfl rfl rfl
      (by norm_num [twinAlert]) (by norm_num [twinAlert]) (by norm_num [twinAlert])
      (by norm_num [twinAlert])
  have hkeys : twinCat.map Prod.fst = [0, 1] := rfl
  have ht0 : touchingFor cosd0 sind0 twinCat (0, twinAlert) = [1] := by
    obtain ⟨hnd, hsub, hself⟩ := touchingFor_inv cosd0 sind0 twinCat (0, twinAlert)
    refine eq_single_of_nodup_subset _ 1 hnd hmem0 ?_
    intro x hx
    have hx1 := hsub x hx
    rw [hkeys] at hx1
    have hx2 : x ≠ 0 := by
      intro hq
      rw [hq] at hx
      exact hself hx
    rcases List.mem_cons.mp hx1 with h | h
    · exact absurd h hx2
    · exact List.mem_singleton.mp h
  have ht1 : touchingFor cosd0 sind0 twinCat (1, twinAlert) = [0] := by
    obtain ⟨hnd, hsub, hself⟩ := touchingFor_inv cosd0 sind0 twinCat (1, twinAlert)
    refine eq_single_of_nodup_subset _ 0 hnd hmem1 ?_
    intro x hx
    have hx1 := hsub x hx
    rw [hkeys] at hx1
    have hx2 : x ≠ 1 := by
      intro hq
      rw [hq] at hx
      exact hself hx
    rcases List.mem_cons.mp hx1 with h | h
    · exact h
    · exact absurd (List.mem_singleton.mp h) hx2
  have hdict : get_multiplet_index_dictionary cosd0 sind0 twinCat =
      resolveMultiplets [(0, [1]), (1, [0])] := by
    rw [get_multiplet_index_dictionary,
      show twinCat.map (fun pr => (pr.1, touchingFor cosd0 sind0 twinCat pr)) =
        [(0, touchingFor cosd0 sind0 twinCat (0, twinAlert)),
         (1, touchingFor cosd0 sind0 twinCat (1, twinAlert))] from rfl,
      ht0, ht1]
  rw [hdict]
  decide

/-- Witness for C9 (amended) at two identical concrete alerts. -/
theorem symmetric_touch_pre_resolution_witness :
    (cosd0 90 = 0 ∧ sind0 90 = 1 ∧ (0, twinAlert) ∈ twinCat ∧ (1, twinAlert) ∈ twinCat ∧
      (0 : ℕ) ≠ 1 ∧ 0 < twinAlert.RA_ERR_PLUS) ∧
    (1 ∈ touchingFor cosd0 sind0 twinCat (0, twinAlert) ∧
     0 ∈ touchingFor cosd0 sind0 twinCat (1, twinAlert)) := by
  have hc90 : cosd0 90 = 0 := by norm_num [cosd0]
  have hs90 : sind0 90 = 1 := by norm_num [sind0]
  refine ⟨⟨hc90, hs90, by simp [twinCat], by simp [twinCat], by norm_num,
    by norm_num [twinAlert]⟩, ?_⟩
  exact symmetric_touch_pre_resolution cosd0 sind0 hc90 hs90 twinCat 0 1 twinAlert twinAlert
    (by simp [twinCat]) (by simp [twinCat]) (by norm_num) rfl rfl rfl rfl rfl rfl
    (by norm_num [twinAlert]) (by norm_num [twinAlert]) (by norm_num [twinAlert])
    (by norm_num [twinAlert])

lemma theta_mem_boundaryAngles (θ : ℚ) : θ ∈ boundaryAngles θ := by
  have h : θ + ((0 : ℕ) : ℚ) * (90 / 19) ∈
      List.map (fun k : ℕ => θ + (k : ℚ) * (90 / 19)) (List.range 20) :=
    List.mem_map_of_mem (fun k : ℕ => θ + (k : ℚ) * (90 / 19))
      (List.mem_range.mpr (by norm_num : (0 : ℕ) < 20))
  have he : θ + ((0 : ℕ) : ℚ) * (90 / 19) = θ := by norm_num
  rw [he] at h
  exact h

lemma wrap_east_point_inside (dec : ℚ) :
    is_in_ellipse ⟨-(1/2), dec⟩ (719/2) dec (1, -1) (1, -1) = true := by
  apply is_in_ellipse_of_mask1
  dsimp only
  rw [min_eq_right (by norm_num : (-1 : ℚ) ≤ 1), max_eq_left (by norm_num : (-1 : ℚ) ≤ 1)]
  have htmp : tmpRA (-(1/2) : ℚ) (719/2) (-1) 1 = 0 := by
    simp only [tmpRA]
    rw [if_neg (by norm_num : ¬((719 : ℚ)/2 + -1 ≤ 0)),
      if_pos (by norm_num : (360 : ℚ) ≤ 719/2 + 1),
      show (-(1/2) : ℚ) - 719/2 = -360 by norm_num, pymod360_neg_360]
  rw [htmp, sub_self]
  exact quadMask1_origin 1 1 one_pos one_pos

lemma wrap_west_point_inside (dec : ℚ) :
    is_in_ellipse ⟨721/2, dec⟩ (1/2) dec (1, -1) (1, -1) = true := by
  apply is_in_ellipse_of_mask1
  dsimp only
  rw [min_eq_right (by norm_num : (-1 : ℚ) ≤ 1), max_eq_left (by norm_num : (-1 : ℚ) ≤ 1)]
  have htmp : tmpRA ((721 : ℚ)/2) (1/2) (-1) 1 = 0 := by
    simp only [tmpRA]
    rw [if_pos (by norm_num : (1 : ℚ)/2 + -1 ≤ 0),
      if_neg (by norm_num : ¬((360 : ℚ) ≤ 1/2 + 1)),
      show (-((721 : ℚ)/2 - 1/2)) = -360 by norm_num, pymod360_neg_360, neg_zero]
  rw [htmp, sub_self]
  exact quadMask1_origin 1 1 one_pos one_pos

/-- The alert just below the 360° boundary (RA = 359.5°, all errors 1°). -/
def wrapAlertHigh (dec : ℚ) : Alert := ⟨719/2, dec, 1, 1, 1, 1⟩

/-- The alert just above the 0° boundary (RA = 0.5°, all errors 1°). -/
def wrapAlertLow (dec : ℚ) : Alert := ⟨1/2, dec, 1, 1, 1, 1⟩

/-- C4: for the two-alert catalog at RA 359.5° and 0.5° with equal DEC and
all error magnitudes 1°, the overlap is detected across the 360°/0°
boundary: each alert's pre-resolution touching list contains the other. -/
theorem wraparound_touch (cosd sind : ℚ → ℚ)
    (hc0 : cosd 0 = 1) (hs0 : sind 0 = 0) (hc180 : cosd 180 = -1) (hs180 : sind 180 = 0)
    (dec : ℚ) (iA iB : ℕ) (hne : iA ≠ iB) :
    iB ∈ touchingFor cosd sind [(iA, wrapAlertHigh dec), (iB, wrapAlertLow dec)]
        (iA, wrapAlertHigh dec) ∧
    iA ∈ touchingFor cosd sind [(iA, wrapAlertHigh dec), (iB, wrapAlertLow dec)]
        (iB, wrapAlertLow dec) := by
  constructor
  · have h180 : (180 : ℚ) ∈ boundaryAngles 180 := theta_mem_boundaryAngles 180
    have hpt : (⟨Alert.RA_ERR_MINUS (wrapAlertLow dec) * cosd 180 + (wrapAlertLow dec).RA,
        Alert.DEC_ERR_MINUS (wrapAlertLow dec) * sind 180 + (wrapAlertLow dec).DEC⟩ : Point) =
        ⟨-(1/2), dec⟩ := by
      simp only [wrapAlertLow]
      rw [hc180, hs180]
      norm_num
    have hin : is_in_ellipse
        ⟨Alert.RA_ERR_MINUS (wrapAlertLow dec) * cosd 180 + (wrapAlertLow dec).RA,
         Alert.DEC_ERR_MINUS (wrapAlertLow dec) * sind 180 + (wrapAlertLow dec).DEC⟩
        (iA, wrapAlertHigh dec).2.RA (iA, wrapAlertHigh dec).2.DEC
        ((iA, wrapAlertHigh dec).2.RA_ERR_PLUS, -(iA, wrapAlertHigh dec).2.RA_ERR_MINUS)
        ((iA, wrapAlertHigh dec).2.DEC_ERR_PLUS, -(iA, wrapAlertHigh dec).2.DEC_ERR_MINUS) =
          true := by
      rw [hpt]
      exact wrap_east_point_inside dec
    have hhit : iB ∈ quadrantHits cosd sind [(iA, wrapAlertHigh dec), (iB, wrapAlertLow dec)]
        (iA, wrapAlertHigh dec) 180 Alert.RA_ERR_MINUS Alert.DEC_ERR_MINUS := by
      have hmm : (iB, wrapAlertLow dec) ∈ [(iA, wrapAlertHigh dec), (iB, wrapAlertLow dec)] :=
        List.mem_cons_of_mem _ (List.mem_singleton.mpr rfl)
      rw [quadrantHits]
      exact List.mem_map_of_mem Prod.fst (List.mem_filter.mpr
        ⟨hmm, by rw [List.any_eq_true]; exact ⟨180, h180, hin⟩⟩)
    rw [touchingFor, touchingForOpt]
    refine mem_quadStep_of_mem_acc cosd sind _ _ 270 Alert.RA_ERR_PLUS Alert.DEC_ERR_MINUS _ iB
      ?_ (Ne.symm hne)
    exact mem_quadStep_of_mem_hits cosd sind _ _ 180 Alert.RA_ERR_MINUS Alert.DEC_ERR_MINUS _ iB
      hhit (Ne.symm hne)
  · have h0m : (0 : ℚ) ∈ boundaryAngles 0 := theta_mem_boundaryAngles 0
    have hpt : (⟨Alert.RA_ERR_PLUS (wrapAlertHigh dec) * cosd 0 + (wrapAlertHigh dec).RA,
        Alert.DEC_ERR_PLUS (wrapAlertHigh dec) * sind 0 + (wrapAlertHigh dec).DEC⟩ : Point) =
        ⟨721/2, dec⟩ := by
      simp only [wrapAlertHigh]
      rw [hc0, hs0]
      norm_num
    have hin : is_in_ellipse
        ⟨Alert.RA_ERR_PLUS (wrapAlertHigh dec) * cosd 0 + (wrapAlertHigh dec).RA,
         Alert.DEC_ERR_PLUS (wrapAlertHigh dec) * sind 0 + (wrapAlertHigh dec).DEC⟩
        (iB, wrapAlertLow dec).2.RA (iB, wrapAlertLow dec).2.DEC
        ((iB, wrapAlertLow dec).2.RA_ERR_PLUS, -(iB, wrapAlertLow dec).2.RA_ERR_MINUS)
        ((iB, wrapAlertLow dec).2.DEC_ERR_PLUS, -(iB, wrapAlertLow dec).2.DEC_ERR_MINUS) =
          true := by
      rw [hpt]
      exact wrap_west_point_inside dec
    have hhit : iA ∈ quadrantHits cosd sind [(iA, wrapAlertHigh dec), (iB, wrapAlertLow dec)]
        (iB, wrapAlertLow dec) 0 Alert.RA_ERR_PLUS Alert.DEC_ERR_PLUS := by
      have hmm : (iA, wrapAlertHigh dec) ∈ [(iA, wrapAlertHigh dec), (iB, wrapAlertLow dec)] :=
        List.mem_cons_self _ _
      rw [quadrantHits]
      exact List.mem_map_of_mem Prod.fst (List.mem_filter.mpr
        ⟨hmm, by rw [List.any_eq_true]; exact ⟨0, h0m, hin⟩⟩)
    rw [touchingFor, touchingForOpt]
    refine mem_quadStep_of_mem_acc cosd sind _ _ 270 Alert.RA_ERR_PLUS Alert.DEC_ERR_MINUS _ iA
      ?_ hne
    refine mem_quadStep_of_mem_acc cosd sind _ _ 180 Alert.RA_ERR_MINUS Alert.DEC_ERR_MINUS _ iA
      ?_ hne
    refine mem_quadStep_of_mem_acc cosd sind _ _ 90 Alert.RA_ERR_MINUS Alert.DEC_ERR_PLUS _ iA
      ?_ hne
    exact mem_quadStep_of_mem_hits cosd sind _ _ 0 Alert.RA_ERR_PLUS Alert.DEC_ERR_PLUS none iA
      hhit hne

/-- Witness for C4 at a concrete DEC and concrete indices. -/
theorem wraparound_touch_witness :
    (cosd0 0 = 1 ∧ sind0 0 = 0 ∧ cosd0 180 = -1 ∧ sind0 180 = 0 ∧ (0 : ℕ) ≠ 1) ∧
    (1 ∈ touchingFor cosd0 sind0 [(0, wrapAlertHigh 5), (1, wrapAlertLow 5)]
        (0, wrapAlertHigh 5) ∧
     0 ∈ touchingFor cosd0 sind0 [(0, wrapAlertHigh 5), (1, wrapAlertLow 5)]
        (1, wrapAlertLow 5)) := by
  have hc0 : cosd0 0 = 1 := by norm_num [cosd0]
  have hs0 : sind0 0 = 0 := by norm_num [sind0]
  have hc180 : cosd0 180 = -1 := by norm_num [cosd0]
  have hs180 : sind0 180 = 0 := by norm_num [sind0]
  exact ⟨⟨hc0, hs0, hc180, hs180, by norm_num⟩,
    wraparound_touch cosd0 sind0 hc0 hs0 hc180 hs180 5 0 1 (by norm_num)⟩
